import Mathlib

/-!
Verification of the countries-table query and render layer (src/js/index.js).

The JavaScript program exposes a query object over a static array of country
records (`countries.all`) and a table-rendering helper (`tableHelper`).  We
embed the data model and each operation as Lean definitions and prove the
specified properties about them.
-/

namespace CountriesTable

/-- The `name` field of a record.  In the source dataset it is a mapping from
language label to localized string; after `getByLanguage` with a truthy
language it is replaced by the (possibly `undefined`) looked-up string.
`str none` models the JavaScript value `undefined`. -/
inductive NameField where
  | map : List (String × String) → NameField
  | str : Option String → NameField
deriving Repr, DecidableEq, Inhabited

/-- A source country record, as stored in `countries.all`
(see the record layout documented at src/js/index.js lines 17-24):
`code`, `continent`, `areaInKm2`, `population`, `capital`, and a `name`
mapping from language label to localized name. -/
structure Country where
  code : String
  continent : String
  areaInKm2 : Nat
  population : Nat
  capital : String
  name : List (String × String)
deriving Repr, DecidableEq, Inhabited

/-- A record produced by a query: the shallow copy pushed into `newArr`.
Identical to `Country` except that `name` may have been overwritten by a
looked-up string (`NameField.str`) or left as the mapping (`NameField.map`). -/
structure PCountry where
  code : String
  continent : String
  areaInKm2 : Nat
  population : Nat
  capital : String
  name : NameField
deriving Repr, DecidableEq, Inhabited

/-- JavaScript property lookup `m[language]` on a name mapping: the value at
the key if present, `undefined` (`none`) otherwise. -/
def nameLookup (m : List (String × String)) (language : String) : Option String :=
  (m.find? fun p => p.1 = language).map Prod.snd

/-- JavaScript truthiness of an optional numeric argument: `undefined` and `0`
are falsy, every other number is truthy. -/
def jsTruthyNum : Option Nat → Bool
  | none => false
  | some m => m != 0

/-- Embedding of `countries.getByLanguage(language = 'English')`
(src/js/index.js 32-45).  The loop pushes a shallow copy of `this.all[i]`
(made with `Object.assign` on an empty object) into `newArr` and, when
`language` is truthy, overwrites the copy's `name` with
`this.all[i].name[language]`.  The argument is `none` when the caller passed
no argument (JavaScript `undefined`), in which case the default `'English'`
applies; `some ""` is the falsy-string case in which the copy keeps the
original name mapping. -/
def getByLanguage (all : List Country) (languageArg : Option String := none) :
    List PCountry :=
  all.map fun c =>
    let language := languageArg.getD "English"
    let copy : PCountry :=
      { code := c.code, continent := c.continent, areaInKm2 := c.areaInKm2,
        population := c.population, capital := c.capital,
        name := NameField.map c.name }
    if language = "" then copy
    else { copy with name := NameField.str (nameLookup c.name language) }

/-- Embedding of `countries.getByPopulation(minPopulation, maxPopulation)`
(src/js/index.js 57-73).  Obtains the English projection, then walks it in
order, `unshift`ing (prepending) every match: when `maxPopulation` is truthy
the test is `population <= maxPopulation && population >= minPopulation`,
otherwise `population >= minPopulation`. -/
def getByPopulation (all : List Country) (minPopulation : Nat)
    (maxPopulation : Option Nat := none) : List PCountry :=
  let country := getByLanguage all (some "English")
  country.foldl
    (fun newArr c =>
      if jsTruthyNum maxPopulation then
        if c.population ≤ maxPopulation.getD 0 ∧ minPopulation ≤ c.population
        then c :: newArr else newArr
      else
        if minPopulation ≤ c.population then c :: newArr else newArr)
    []

/-- Embedding of `countries.getByAreaAndContinent(continent, minArea)`
(src/js/index.js 84-94).  Obtains the English projection, then prepends every
record whose `continent` strictly equals (`===`) the argument and whose
`areaInKm2` is at least `minArea`. -/
def getByAreaAndContinent (all : List Country) (continent : String)
    (minArea : Nat) : List PCountry :=
  let country := getByLanguage all (some "English")
  country.foldl
    (fun newArr c =>
      if c.continent = continent then
        if minArea ≤ c.areaInKm2 then c :: newArr else newArr
      else newArr)
    []

/-- A table cell: either the flag `<img>` element (carrying its `src` path) or
a text node (the string the DOM's `createTextNode` coerces its argument to). -/
inductive Cell where
  | img : String → Cell
  | text : String → Cell
deriving Repr, DecidableEq

/-- A table row is its ordered list of `<td>` cell contents. -/
abbrev Row := List Cell

/-- Embedding of `tableHelper.clearTable` (src/js/index.js 104-108): sets the
table body's `innerHTML` to the empty string, leaving no rows. -/
def clearTable (tableRows : List Row) : List Row :=
  let _ := tableRows
  []

/-- Embedding of `tableHelper.countryCodeToFlagImg` (src/js/index.js
117-121): an `<img>` node whose `src` is the template literal with the code
spliced in verbatim. -/
def countryCodeToFlagImg (countryCode : String) : Cell :=
  Cell.img ("flags/" ++ countryCode ++ ".png")

/-- JavaScript string coercion applied by `document.createTextNode` to a
`name` value: a looked-up string is used as-is, `undefined` prints as
"undefined", and an unresolved name mapping (a plain object) prints as
"[object Object]". -/
def textOfName : NameField → String
  | NameField.str (some s) => s
  | NameField.str none => "undefined"
  | NameField.map _ => "[object Object]"

/-- Embedding of `tableHelper.countryToRow` (src/js/index.js 150-182): a
`<tr>` holding, in order, the flag image, code, name, continent, area,
population and capital cells.  Numeric fields pass through `createTextNode`'s
string coercion. -/
def countryToRow (country : PCountry) : Row :=
  [ countryCodeToFlagImg country.code,
    Cell.text country.code,
    Cell.text (textOfName country.name),
    Cell.text country.continent,
    Cell.text (toString country.areaInKm2),
    Cell.text (toString country.population),
    Cell.text country.capital ]

/-- Embedding of `tableHelper.countriesToTable` (src/js/index.js 194-200):
clears the table body, then appends `countryToRow` of each entry, in input
order. -/
def countriesToTable (countries : List PCountry) (tableRows : List Row) :
    List Row :=
  countries.foldl (fun body c => body ++ [countryToRow c]) (clearTable tableRows)

/-!
Heap model.  To state that the queries never mutate the canonical dataset we
embed the object heap explicitly: a `Store` is the list of allocated objects,
a record is a reference (index) into it, and `countries.all` is a list of
references.  `Object.assign` on an empty object allocates a fresh object at
the end of the store, and the assignment `newArr[i].name = ...` is an
in-place update (`writeName`) at the reference of that fresh object.
-/

/-- The object heap: index `r` holds the object at reference `r`. -/
abbrev Store := List PCountry

/-- Reading the object at reference `r` (out-of-range reads, which do not
occur in the program, return the default object). -/
def readObj (s : Store) (r : Nat) : PCountry :=
  s.getD r default

/-- In-place field update `obj.name = v` on the object at reference `r`. -/
def writeName (s : Store) (r : Nat) (v : NameField) : Store :=
  s.set r { readObj s r with name := v }

/-- JavaScript property lookup `name[language]` on a `name` value that may
already have been resolved: on a mapping it is the usual key lookup; on a
resolved string it yields `undefined` (a string primitive has no such
property).  Dataset records always carry a mapping, so only the first arm is
reachable in the program. -/
def nameFieldLookup : NameField → String → Option String
  | NameField.map m, language => nameLookup m language
  | NameField.str _, _ => none

/-- Net effect on one record of the body of the `getByLanguage` loop: the
pushed shallow copy after the conditional `name` overwrite. -/
def projObj (languageArg : Option String) (o : PCountry) : PCountry :=
  let language := languageArg.getD "English"
  if language = "" then o
  else { o with name := NameField.str (nameFieldLookup o.name language) }

/-- Heap-level embedding of `countries.getByLanguage` (src/js/index.js
32-45): for each reference in `all`, allocate a shallow copy of the referenced
object (push), then, when the language is truthy, mutate the fresh object's
`name` in place; return the final store and the references collected in
`newArr`. -/
def getByLanguageH (s : Store) (all : List Nat) (languageArg : Option String) :
    Store × List Nat :=
  match all with
  | [] => (s, [])
  | r :: rest =>
    let language := languageArg.getD "English"
    let copy := readObj s r
    let s1 := s ++ [copy]
    let newRef := s.length
    let s2 :=
      if language = "" then s1
      else writeName s1 newRef (NameField.str (nameFieldLookup copy.name language))
    let res := getByLanguageH s2 rest languageArg
    (res.1, newRef :: res.2)

/-- Heap-level embedding of `countries.getByPopulation` (src/js/index.js
57-73): run the English projection on the heap, then walk the returned
references, prepending the matches; the heap is only read. -/
def getByPopulationH (s : Store) (all : List Nat) (minPopulation : Nat)
    (maxPopulation : Option Nat) : Store × List Nat :=
  let res := getByLanguageH s all (some "English")
  (res.1,
   res.2.foldl
     (fun newArr r =>
       if jsTruthyNum maxPopulation then
         if (readObj res.1 r).population ≤ maxPopulation.getD 0 ∧
            minPopulation ≤ (readObj res.1 r).population
         then r :: newArr else newArr
       else
         if minPopulation ≤ (readObj res.1 r).population then r :: newArr
         else newArr)
     [])

/-- Heap-level embedding of `countries.getByAreaAndContinent`
(src/js/index.js 84-94): run the English projection on the heap, then walk
the returned references, prepending the matches; the heap is only read. -/
def getByAreaAndContinentH (s : Store) (all : List Nat) (continent : String)
    (minArea : Nat) : Store × List Nat :=
  let res := getByLanguageH s all (some "English")
  (res.1,
   res.2.foldl
     (fun newArr r =>
       if (readObj res.1 r).continent = continent then
         if minArea ≤ (readObj res.1 r).areaInKm2 then r :: newArr else newArr
       else newArr)
     [])

/-- Sample record shaped like the Canada record documented in the source
(src/js/index.js 17-24). -/
def caRecord : Country :=
  { code := "CA", continent := "Americas", areaInKm2 := 9984670,
    population := 36624199, capital := "Ottawa",
    name := [("English", "Canada"), ("French", "Le Canada")] }

/-- Sample record for a second country, with an English-only name mapping. -/
def jpRecord : Country :=
  { code := "JP", continent := "Asia", areaInKm2 := 377972,
    population := 126451398, capital := "Tokyo",
    name := [("English", "Japan")] }

/-- A small concrete dataset used to witness the theorems. -/
def sampleAll : List Country := [caRecord, jpRecord]

/-- The English projection of `jpRecord`, used to witness membership. -/
def pcJP : PCountry :=
  { code := "JP", continent := "Asia", areaInKm2 := 377972,
    population := 126451398, capital := "Tokyo",
    name := NameField.str (some "Japan") }

/-- A one-object heap holding the Canada record, used to witness the
heap-level theorems. -/
def storeSample : Store :=
  [ { code := "CA", continent := "Americas", areaInKm2 := 9984670,
      population := 36624199, capital := "Ottawa",
      name := NameField.map [("English", "Canada"), ("French", "Le Canada")] } ]

/-! Helper lemmas. -/

theorem getD_map_of_lt {α β : Type} [Inhabited α] [Inhabited β] (f : α → β)
    (l : List α) (i : Nat) (hi : i < l.length) :
    (l.map f).getD i default = f (l.getD i default) := by
  induction l generalizing i with
  | nil => simp at hi
  | cons a t ih =>
    cases i with
    | zero => simp
    | succ j => simpa using ih j (by simpa using hi)

theorem foldl_prepend_eq_filter_reverse {α : Type} (p : α → Prop)
    [DecidablePred p] (l acc : List α) :
    l.foldl (fun r a => if p a then a :: r else r) acc
      = (l.filter fun a => decide (p a)).reverse ++ acc := by
  induction l generalizing acc with
  | nil => simp
  | cons a t ih =>
    by_cases h : p a <;>
      simp [List.foldl_cons, List.filter_cons, h, ih, List.append_assoc]

theorem mem_foldl_prepend {α : Type} (p : α → Prop) [DecidablePred p]
    (l : List α) (x : α) :
    x ∈ l.foldl (fun r a => if p a then a :: r else r) [] ↔ x ∈ l ∧ p x := by
  rw [foldl_prepend_eq_filter_reverse]
  simp [List.mem_filter]

theorem foldl_append_eq_append_map {α β : Type} (f : α → β) (l : List α)
    (acc : List β) :
    l.foldl (fun b a => b ++ [f a]) acc = acc ++ l.map f := by
  induction l generalizing acc with
  | nil => simp
  | cons a t ih => simp [List.foldl_cons, ih, List.append_assoc]

theorem mem_getByLanguage_english (all : List Country) (pc : PCountry)
    (h : pc ∈ getByLanguage all (some "English")) :
    ∃ c, c ∈ all ∧ pc.code = c.code ∧ pc.continent = c.continent ∧
      pc.areaInKm2 = c.areaInKm2 ∧ pc.population = c.population ∧
      pc.capital = c.capital ∧
      pc.name = NameField.str (nameLookup c.name "English") := by
  have hE : ¬ (("English" : String) = "") := by decide
  simp only [getByLanguage, List.mem_map] at h
  obtain ⟨c, hc, rfl⟩ := h
  refine ⟨c, hc, ?_⟩
  simp [hE]

/-! Claim theorems. -/

/-- C1: `getByLanguage` returns one element per source record, in dataset
order: element `i` is a copy of record `i` whose `name` is replaced by the
record's `name[language]` when the (defaulted) language argument is truthy,
and is left as the original name mapping when it is falsy; calling with no
argument behaves as calling with `"English"`. -/
theorem getByLanguage_length_order_content (all : List Country)
    (languageArg : Option String) :
    (getByLanguage all languageArg).length = all.length ∧
    getByLanguage all = getByLanguage all (some "English") ∧
    ∀ i, i < all.length →
      (getByLanguage all languageArg).getD i default =
        (let c := all.getD i default
         let language := languageArg.getD "English"
         if language = "" then
           { code := c.code, continent := c.continent,
             areaInKm2 := c.areaInKm2, population := c.population,
             capital := c.capital, name := NameField.map c.name }
         else
           { code := c.code, continent := c.continent,
             areaInKm2 := c.areaInKm2, population := c.population,
             capital := c.capital,
             name := NameField.str (nameLookup c.name language) }) := by
  refine ⟨by simp [getByLanguage], rfl, ?_⟩
  intro i hi
  simp only [getByLanguage]
  rw [getD_map_of_lt _ _ i hi]

/-- Witness for C1 at a concrete dataset, language and index. -/
theorem getByLanguage_length_order_content_witness :
    (getByLanguage sampleAll (some "French")).getD 0 default =
      (let c := sampleAll.getD 0 default
       let language := (some "French").getD "English"
       if language = "" then
         { code := c.code, continent := c.continent,
           areaInKm2 := c.areaInKm2, population := c.population,
           capital := c.capital, name := NameField.map c.name }
       else
         { code := c.code, continent := c.continent,
           areaInKm2 := c.areaInKm2, population := c.population,
           capital := c.capital,
           name := NameField.str (nameLookup c.name language) }) :=
  (getByLanguage_length_order_content sampleAll (some "French")).2.2 0
    (by decide)

/-- C8: when the requested language is truthy but missing from a record's
name mapping, `getByLanguage` silently yields `undefined` for that record's
`name` rather than failing. -/
theorem getByLanguage_unknown_language_yields_undefined (all : List Country)
    (language : String) (htruthy : language ≠ "") (i : Nat)
    (hi : i < all.length)
    (hmissing : nameLookup (all.getD i default).name language = none) :
    ((getByLanguage all (some language)).getD i default).name
      = NameField.str none := by
  have hname : ((getByLanguage all (some language)).getD i default).name
      = NameField.str (nameLookup (all.getD i default).name language) := by
    simp only [getByLanguage]
    rw [getD_map_of_lt _ _ i hi]
    simp [htruthy]
  rw [hname, hmissing]

/-- Witness for C8: the language "Klingon" is absent from the sample
records' name mappings and projects to an `undefined` name. -/
theorem getByLanguage_unknown_language_yields_undefined_witness :
    ((getByLanguage sampleAll (some "Klingon")).getD 0 default).name
      = NameField.str none :=
  getByLanguage_unknown_language_yields_undefined sampleAll "Klingon"
    (by decide) 0 (by decide) (by decide)

/-- C4: a `maxPopulation` of `0` is falsy, so `getByPopulation` treats it
exactly like an absent `maxPopulation` and falls through to the min-only
branch. -/
theorem getByPopulation_maxZero_treated_as_absent (all : List Country)
    (minPopulation : Nat) :
    getByPopulation all minPopulation (some 0)
      = getByPopulation all minPopulation := rfl

/-- C9: `clearTable` empties the table body, so clearing an already-empty
body is a no-op and clearing twice equals clearing once. -/
theorem clearTable_idempotent (tableRows : List Row) :
    clearTable tableRows = [] ∧
    clearTable (clearTable tableRows) = clearTable tableRows ∧
    clearTable ([] : List Row) = [] :=
  ⟨rfl, rfl, rfl⟩

/-- C10: `countryCodeToFlagImg` splices the country code into the flag path
verbatim, with no case conversion: for code "CA" the path is "flags/CA.png",
not the lowercased "flags/ca.png" shown in the source's doc comment. -/
theorem countryCodeToFlagImg_no_case_conversion (countryCode : String) :
    countryCodeToFlagImg countryCode
      = Cell.img ("flags/" ++ countryCode ++ ".png") ∧
    countryCodeToFlagImg "CA" = Cell.img "flags/CA.png" ∧
    countryCodeToFlagImg "CA" ≠ Cell.img "flags/ca.png" :=
  ⟨rfl, rfl, by decide⟩

/-- C2: with a truthy `maxPopulation`, `getByPopulation` returns exactly the
English-projected records with `minPopulation ≤ population ≤ maxPopulation`;
with an absent or falsy `maxPopulation` it returns exactly those with
`population ≥ minPopulation`; every returned record is an English-resolved
copy of a dataset record. -/
theorem getByPopulation_membership (all : List Country)
    (minPopulation m : Nat) (hm : m ≠ 0) (maxPopulation : Option Nat)
    (hfalsy : jsTruthyNum maxPopulation = false) :
    (∀ pc, pc ∈ getByPopulation all minPopulation (some m) ↔
        pc ∈ getByLanguage all (some "English") ∧
        minPopulation ≤ pc.population ∧ pc.population ≤ m) ∧
    (∀ pc, pc ∈ getByPopulation all minPopulation maxPopulation ↔
        pc ∈ getByLanguage all (some "English") ∧
        minPopulation ≤ pc.population) ∧
    (∀ pc, (pc ∈ getByPopulation all minPopulation (some m) ∨
            pc ∈ getByPopulation all minPopulation maxPopulation) →
        ∃ c, c ∈ all ∧ pc.code = c.code ∧ pc.continent = c.continent ∧
          pc.areaInKm2 = c.areaInKm2 ∧ pc.population = c.population ∧
          pc.capital = c.capital ∧
          pc.name = NameField.str (nameLookup c.name "English")) := by
  have htrue : jsTruthyNum (some m) = true := by
    simp [jsTruthyNum, hm]
  have h1 : ∀ pc, pc ∈ getByPopulation all minPopulation (some m) ↔
      pc ∈ getByLanguage all (some "English") ∧
      minPopulation ≤ pc.population ∧ pc.population ≤ m := by
    intro pc
    simp only [getByPopulation]
    have hb : (fun (newArr : List PCountry) (c : PCountry) =>
        if jsTruthyNum (some m) then
          if c.population ≤ (some m).getD 0 ∧ minPopulation ≤ c.population
          then c :: newArr else newArr
        else if minPopulation ≤ c.population then c :: newArr else newArr)
        = fun newArr c =>
            if c.population ≤ m ∧ minPopulation ≤ c.population
            then c :: newArr else newArr := by
      funext newArr c
      rw [htrue]
      simp
    rw [hb, mem_foldl_prepend
      (fun c : PCountry => c.population ≤ m ∧ minPopulation ≤ c.population)]
    tauto
  have h2 : ∀ pc, pc ∈ getByPopulation all minPopulation maxPopulation ↔
      pc ∈ getByLanguage all (some "English") ∧
      minPopulation ≤ pc.population := by
    intro pc
    simp only [getByPopulation]
    have hb : (fun (newArr : List PCountry) (c : PCountry) =>
        if jsTruthyNum maxPopulation then
          if c.population ≤ maxPopulation.getD 0 ∧
             minPopulation ≤ c.population
          then c :: newArr else newArr
        else if minPopulation ≤ c.population then c :: newArr else newArr)
        = fun newArr c =>
            if minPopulation ≤ c.population then c :: newArr else newArr := by
      funext newArr c
      rw [hfalsy]
      simp
    rw [hb, mem_foldl_prepend
      (fun c : PCountry => minPopulation ≤ c.population)]
  refine ⟨h1, h2, ?_⟩
  intro pc hpc
  have hmem : pc ∈ getByLanguage all (some "English") := by
    rcases hpc with h | h
    · exact ((h1 pc).mp h).1
    · exact ((h2 pc).mp h).1
  exact mem_getByLanguage_english all pc hmem

/-- Witness for C2: Japan's English projection is in the population band
100-200 million over the sample dataset. -/
theorem getByPopulation_membership_witness :
    pcJP ∈ getByPopulation sampleAll 100000000 (some 200000000) :=
  ((getByPopulation_membership sampleAll 100000000 200000000 (by decide)
      none (by decide)).1 pcJP).mpr (by decide)

/-- C3: both filters accumulate matches by prepending, so the result is the
reverse of the matching subsequence taken in dataset order. -/
theorem query_results_reverse_dataset_order (all : List Country)
    (minPopulation : Nat) (maxPopulation : Option Nat) (continent : String)
    (minArea : Nat) :
    getByPopulation all minPopulation maxPopulation =
      ((getByLanguage all (some "English")).filter fun c =>
        if jsTruthyNum maxPopulation then
          decide (c.population ≤ maxPopulation.getD 0 ∧
            minPopulation ≤ c.population)
        else decide (minPopulation ≤ c.population)).reverse ∧
    getByAreaAndContinent all continent minArea =
      ((getByLanguage all (some "English")).filter fun c =>
        decide (c.continent = continent ∧ minArea ≤ c.areaInKm2)).reverse := by
  constructor
  · simp only [getByPopulation]
    cases h : jsTruthyNum maxPopulation with
    | false =>
      show List.foldl
          (fun newArr c =>
            if minPopulation ≤ c.population then c :: newArr else newArr)
          [] (getByLanguage all (some "English"))
        = (List.filter
            (fun c => decide (minPopulation ≤ c.population))
            (getByLanguage all (some "English"))).reverse
      rw [foldl_prepend_eq_filter_reverse
        (fun c : PCountry => minPopulation ≤ c.population)]
      simp
    | true =>
      show List.foldl
          (fun newArr c =>
            if c.population ≤ maxPopulation.getD 0 ∧
               minPopulation ≤ c.population
            then c :: newArr else newArr)
          [] (getByLanguage all (some "English"))
        = (List.filter
            (fun c => decide (c.population ≤ maxPopulation.getD 0 ∧
              minPopulation ≤ c.population))
            (getByLanguage all (some "English"))).reverse
      rw [foldl_prepend_eq_filter_reverse
        (fun c : PCountry => c.population ≤ maxPopulation.getD 0 ∧
          minPopulation ≤ c.population)]
      simp
  · simp only [getByAreaAndContinent]
    have hb : (fun (newArr : List PCountry) (c : PCountry) =>
        if c.continent = continent then
          if minArea ≤ c.areaInKm2 then c :: newArr else newArr
        else newArr)
        = fun newArr c =>
            if c.continent = continent ∧ minArea ≤ c.areaInKm2
            then c :: newArr else newArr := by
      funext newArr c
      by_cases h1 : c.continent = continent <;>
        by_cases h2 : minArea ≤ c.areaInKm2 <;> simp [h1, h2]
    rw [hb, foldl_prepend_eq_filter_reverse
      (fun c : PCountry => c.continent = continent ∧ minArea ≤ c.areaInKm2)]
    simp

/-- C5: `getByAreaAndContinent` returns exactly the English-projected records
whose `continent` equals the argument under exact string equality and whose
`areaInKm2` is at least `minArea`; every returned record is an
English-resolved copy of a dataset record, and with continent "Asia" and
minimum area 0 it returns all Asia records regardless of area. -/
theorem getByAreaAndContinent_membership (all : List Country)
    (continent : String) (minArea : Nat) :
    (∀ pc, pc ∈ getByAreaAndContinent all continent minArea ↔
        pc ∈ getByLanguage all (some "English") ∧
        pc.continent = continent ∧ minArea ≤ pc.areaInKm2) ∧
    (∀ pc, pc ∈ getByAreaAndContinent all continent minArea →
        ∃ c, c ∈ all ∧ pc.code = c.code ∧ pc.continent = c.continent ∧
          pc.areaInKm2 = c.areaInKm2 ∧ pc.population = c.population ∧
          pc.capital = c.capital ∧
          pc.name = NameField.str (nameLookup c.name "English")) ∧
    (∀ pc, pc ∈ getByAreaAndContinent all "Asia" 0 ↔
        pc ∈ getByLanguage all (some "English") ∧
        pc.continent = "Asia") := by
  have hgen : ∀ (cont : String) (ma : Nat) (pc : PCountry),
      pc ∈ getByAreaAndContinent all cont ma ↔
      pc ∈ getByLanguage all (some "English") ∧
      pc.continent = cont ∧ ma ≤ pc.areaInKm2 := by
    intro cont ma pc
    simp only [getByAreaAndContinent]
    have hb : (fun (newArr : List PCountry) (c : PCountry) =>
        if c.continent = cont then
          if ma ≤ c.areaInKm2 then c :: newArr else newArr
        else newArr)
        = fun newArr c =>
            if c.continent = cont ∧ ma ≤ c.areaInKm2
            then c :: newArr else newArr := by
      funext newArr c
      by_cases h1 : c.continent = cont <;>
        by_cases h2 : ma ≤ c.areaInKm2 <;> simp [h1, h2]
    rw [hb, mem_foldl_prepend
      (fun c : PCountry => c.continent = cont ∧ ma ≤ c.areaInKm2)]
  refine ⟨hgen continent minArea, ?_, ?_⟩
  · intro pc hpc
    exact mem_getByLanguage_english all pc
      ((hgen continent minArea pc).mp hpc).1
  · intro pc
    rw [hgen "Asia" 0 pc]
    simp

/-- Witness for C5: Japan's English projection is returned for continent
"Asia" with minimum area 0 over the sample dataset. -/
theorem getByAreaAndContinent_membership_witness :
    pcJP ∈ getByAreaAndContinent sampleAll "Asia" 0 :=
  ((getByAreaAndContinent_membership sampleAll "Asia" 0).2.2 pcJP).mpr
    (by decide)

/-- C7: `countriesToTable` clears the body and appends one row per entry in
input order, so the final body has one row per input record, in input order,
whose cells are the flag image, code, name, continent, area, population and
capital of that record; rendering an empty sequence leaves zero rows. -/
theorem countriesToTable_renders_rows (countries : List PCountry)
    (tableRows : List Row) :
    (countriesToTable countries tableRows).length = countries.length ∧
    (∀ i, i < countries.length →
      (countriesToTable countries tableRows).getD i default =
        (let c := countries.getD i default
         [ Cell.img ("flags/" ++ c.code ++ ".png"),
           Cell.text c.code,
           Cell.text (textOfName c.name),
           Cell.text c.continent,
           Cell.text (toString c.areaInKm2),
           Cell.text (toString c.population),
           Cell.text c.capital ])) ∧
    countriesToTable [] (countriesToTable countries tableRows) = [] := by
  have hmain : countriesToTable countries tableRows
      = countries.map countryToRow := by
    simp [countriesToTable, clearTable, foldl_append_eq_append_map]
  refine ⟨by rw [hmain]; simp, ?_, rfl⟩
  intro i hi
  rw [hmain, getD_map_of_lt _ _ i hi]
  rfl

/-- Witness for C7 at a one-record input and index 0. -/
theorem countriesToTable_renders_rows_witness :
    (countriesToTable [pcJP] []).getD 0 default =
      (let c := ([pcJP] : List PCountry).getD 0 default
       [ Cell.img ("flags/" ++ c.code ++ ".png"),
         Cell.text c.code,
         Cell.text (textOfName c.name),
         Cell.text c.continent,
         Cell.text (toString c.areaInKm2),
         Cell.text (toString c.population),
         Cell.text c.capital ]) :=
  (countriesToTable_renders_rows [pcJP] []).2.1 0 (by decide)

/-! Heap-model lemmas. -/

theorem set_append_length (s : List PCountry) (a b : PCountry) :
    (s ++ [a]).set s.length b = s ++ [b] := by
  induction s with
  | nil => rfl
  | cons x t ih => simp [ih]

theorem readObj_append_length (s : Store) (c : PCountry) :
    readObj (s ++ [c]) s.length = c := by
  induction s with
  | nil => rfl
  | cons x t ih => simp [readObj]

theorem readObj_of_extends {s t : Store} (h : s <+: t) {r : Nat}
    (hr : r < s.length) : readObj t r = readObj s r := by
  obtain ⟨u, rfl⟩ := h
  simp [readObj, List.getD_eq_getElem?_getD, List.getElem?_append_left hr]

theorem getByLanguageH_cons (s : Store) (r : Nat) (rest : List Nat)
    (languageArg : Option String) :
    getByLanguageH s (r :: rest) languageArg =
      ((getByLanguageH (s ++ [projObj languageArg (readObj s r)]) rest
          languageArg).1,
       s.length :: (getByLanguageH (s ++ [projObj languageArg (readObj s r)])
          rest languageArg).2) := by
  by_cases h : languageArg.getD "English" = ""
  · simp [getByLanguageH, projObj, h]
  · simp [getByLanguageH, projObj, writeName, h, readObj_append_length,
      set_append_length]

theorem getByLanguageH_store_extends (all : List Nat) (s : Store)
    (languageArg : Option String) :
    s <+: (getByLanguageH s all languageArg).1 := by
  induction all generalizing s with
  | nil => exact ⟨[], by simp [getByLanguageH]⟩
  | cons r rest ih =>
    rw [getByLanguageH_cons]
    exact (List.prefix_append s [projObj languageArg (readObj s r)]).trans
      (ih (s ++ [projObj languageArg (readObj s r)]))

theorem getByLanguageH_preserves (all : List Nat) (s : Store)
    (languageArg : Option String) (r : Nat) (hr : r < s.length) :
    readObj (getByLanguageH s all languageArg).1 r = readObj s r :=
  readObj_of_extends (getByLanguageH_store_extends all s languageArg) hr

theorem getByLanguageH_read_output (all : List Nat) (s : Store)
    (languageArg : Option String) (i : Nat) (hi : i < all.length)
    (hr : all.getD i 0 < s.length) :
    readObj (getByLanguageH s all languageArg).1
        ((getByLanguageH s all languageArg).2.getD i 0)
      = projObj languageArg (readObj s (all.getD i 0)) := by
  induction all generalizing s i with
  | nil => simp at hi
  | cons r rest ih =>
    rw [getByLanguageH_cons]
    cases i with
    | zero =>
      have hext := getByLanguageH_store_extends rest
        (s ++ [projObj languageArg (readObj s r)]) languageArg
      have hread : readObj (getByLanguageH
            (s ++ [projObj languageArg (readObj s r)]) rest languageArg).1
            s.length
          = readObj (s ++ [projObj languageArg (readObj s r)]) s.length :=
        readObj_of_extends hext (by simp)
      simpa [readObj_append_length] using hread
    | succ j =>
      have hj : j < rest.length := by simpa using hi
      have hrj : rest.getD j 0 < s.length := by
        simpa [List.getD_cons_succ] using hr
      have hrj2 : rest.getD j 0
          < (s ++ [projObj languageArg (readObj s r)]).length := by
        simp only [List.length_append, List.length_cons, List.length_nil]
        omega
      have := ih (s ++ [projObj languageArg (readObj s r)]) j hj hrj2
      rw [List.getD_cons_succ, this,
        readObj_of_extends
          (List.prefix_append s [projObj languageArg (readObj s r)]) hrj]
      simp [List.getD_cons_succ]

/-- C6: no query operation mutates the canonical dataset.  In the heap model
every object reachable from `all` before a query holds exactly the same
record (name mapping included) afterwards, for `getByLanguageH`,
`getByPopulationH` and `getByAreaAndContinentH` alike; consequently a second
`getByLanguageH` call with another language still projects from the original
per-language names. -/
theorem queries_never_mutate_dataset (s : Store) (all : List Nat)
    (languageArg : Option String) (minPopulation : Nat)
    (maxPopulation : Option Nat) (continent : String) (minArea : Nat)
    (r : Nat) (hr : r < s.length) :
    readObj (getByLanguageH s all languageArg).1 r = readObj s r ∧
    readObj (getByPopulationH s all minPopulation maxPopulation).1 r
      = readObj s r ∧
    readObj (getByAreaAndContinentH s all continent minArea).1 r
      = readObj s r ∧
    ∀ (langA langB : Option String) (i : Nat), i < all.length →
      all.getD i 0 < s.length →
      readObj (getByLanguageH (getByLanguageH s all langA).1 all langB).1
          ((getByLanguageH (getByLanguageH s all langA).1 all
            langB).2.getD i 0)
        = projObj langB (readObj s (all.getD i 0)) := by
  refine ⟨getByLanguageH_preserves all s languageArg r hr,
    getByLanguageH_preserves all s (some "English") r hr,
    getByLanguageH_preserves all s (some "English") r hr, ?_⟩
  intro langA langB i hi hir
  have hlen : s.length ≤ (getByLanguageH s all langA).1.length :=
    (getByLanguageH_store_extends all s langA).length_le
  rw [getByLanguageH_read_output all _ langB i hi
    (lt_of_lt_of_le hir hlen)]
  rw [getByLanguageH_preserves all s langA _ hir]

/-- Witness for C6 at a one-object heap: querying leaves the Canada record
unchanged, and a second projection with another language still reads the
original name mapping. -/
theorem queries_never_mutate_dataset_witness :
    readObj (getByLanguageH storeSample [0] (some "French")).1 0
      = readObj storeSample 0 ∧
    readObj (getByLanguageH (getByLanguageH storeSample [0]
          (some "Arabic")).1 [0] (some "French")).1
        ((getByLanguageH (getByLanguageH storeSample [0]
          (some "Arabic")).1 [0] (some "French")).2.getD 0 0)
      = projObj (some "French") (readObj storeSample 0) :=
  ⟨(queries_never_mutate_dataset storeSample [0] (some "French") 0 none
      "Asia" 0 0 (by decide)).1,
   (queries_never_mutate_dataset storeSample [0] (some "French") 0 none
      "Asia" 0 0 (by decide)).2.2.2 (some "Arabic") (some "French") 0
      (by decide) (by decide)⟩

end CountriesTable
